import Mathlib

/-!
Shallow embedding of the `little_app` repository's core: the SQLite-backed
menu store and filter layer of `src/screens/HomeScreen.js`, the category
toggle and user-data merge of the same file, and the phone-number
formatting/validation of the profile editor.

Conventions of the embedding:
* the SQLite `menu` table is a `Database`: a list of `MenuItem` rows plus the
  next `AUTOINCREMENT` id (fresh tables start at id 1);
* `SELECT ... ORDER BY name` is modelled by a sort on the `name` field
  (`sortByName`, an insertion sort; SQLite fixes no order among equal keys,
  only that rows come out sorted by `name`);
* `name LIKE '%t%'` is modelled by `likeMatch`, a wildcard matcher with
  SQLite's default ASCII-only case folding;
* JavaScript's `String.prototype.trim` is modelled by `jsTrim` (drop
  whitespace from both ends);
* JavaScript's `item.category || 'Main'` is modelled by `jsOrDefault`
  (`undefined`/`null` and the empty string are falsy);
* the one-shot network fetch of `fetchAndStoreMenuData` is modelled by an
  `Option (List SourceItem)` argument: `some menu` is a response whose body
  parsed to an object carrying a `menu` array, `none` is a network/parse
  failure or a document without a `menu` array;
* `REAL` prices are modelled as exact rationals; no claim performs float
  arithmetic, so the representation difference never surfaces.
-/

/-- JavaScript whitespace class used by `String.prototype.trim` (the common
members: space, tab, line feed, carriage return, vertical tab, form feed,
no-break space, BOM). -/
def isJsWs (c : Char) : Bool :=
  c == ' ' || c == '\t' || c == '\n' || c == '\r' || c == '\x0b' ||
    c == '\x0c' || c == '\u00A0' || c == '\uFEFF'

/-- Remove leading and trailing characters satisfying `p` from a character
list: first drop the leading run, then the trailing run. -/
def trimChars (p : Char → Bool) (l : List Char) : List Char :=
  List.rdropWhile p (List.dropWhile p l)

/-- Model of JavaScript `searchText.trim()`. -/
def jsTrim (s : String) : String :=
  ⟨trimChars isJsWs s.data⟩

/-- Model of JavaScript `x || dflt` for a possibly-absent string `x`:
`undefined`/`null` (here `none`) and the empty string are falsy and yield
the default. -/
def jsOrDefault (v : Option String) (dflt : String) : String :=
  match v with
  | none => dflt
  | some s => if s == "" then dflt else s

/-- SQLite `LIKE` pattern matching: `%` matches any run of characters,
`_` matches any single character, other characters match themselves up to
SQLite's default ASCII-only case folding. -/
def likeMatch : List Char → List Char → Bool
  | [], [] => true
  | [], _ :: _ => false
  | '%' :: ps, [] => likeMatch ps []
  | '%' :: ps, c :: s => likeMatch ps (c :: s) || likeMatch ('%' :: ps) s
  | '_' :: _, [] => false
  | '_' :: ps, _ :: s => likeMatch ps s
  | _ :: _, [] => false
  | p :: ps, c :: s => (p.toLower == c.toLower) && likeMatch ps s
termination_by ps s => ps.length + s.length
decreasing_by all_goals simp_arith

/-- Insert `a` into `l` in front of the first element `b` with `le a b`. -/
def insertByLe (le : α → α → Bool) (a : α) : List α → List α
  | [] => [a]
  | b :: l => if le a b then a :: b :: l else b :: insertByLe le a l

/-- Insertion sort by the boolean relation `le`.  Used to model SQL
`ORDER BY`; chosen over `List.mergeSort` because it is structurally
recursive, hence evaluable by `decide` on concrete stores. -/
def sortByLe (le : α → α → Bool) : List α → List α
  | [] => []
  | a :: l => insertByLe le a (sortByLe le l)

/-- One row of the `menu` table (schema of `initializeDatabase`):
`id INTEGER PRIMARY KEY AUTOINCREMENT, name TEXT NOT NULL, price REAL NOT
NULL, description TEXT, image TEXT, category TEXT`.  `category` is always
populated by `saveMenuItems`, so rows carry a plain `String` there. -/
structure MenuItem where
  id : Nat
  name : String
  price : Rat
  description : Option String
  image : Option String
  category : String
deriving DecidableEq, Repr

/-- One element of the remote document's `menu` array:
`{ name, price, description, image, category? }`; `category := none` models
an item that omits the field. -/
structure SourceItem where
  name : String
  price : Rat
  description : Option String
  image : Option String
  category : Option String
deriving DecidableEq, Repr

/-- State of the persisted `little_lemon` database: the `menu` rows plus the
next auto-assigned id. -/
structure Database where
  nextId : Nat
  rows : List MenuItem
deriving DecidableEq, Repr

/-- Lexicographic comparison of character lists by code point: SQLite's
default `BINARY` collation on `TEXT` values (UTF-8 byte order coincides with
code-point order).  Proven equivalent to `String` order in
`leChars_iff_le`. -/
def leChars : List Char → List Char → Bool
  | [], _ => true
  | _ :: _, [] => false
  | a :: as, b :: bs =>
    if a < b then true
    else if b < a then false
    else leChars as bs

/-- The `ORDER BY name` comparison between two rows. -/
def nameLe (a b : MenuItem) : Bool :=
  leChars a.name.data b.name.data

/-- `ORDER BY name`: sort rows by the `name` column ascending. -/
def sortByName (rows : List MenuItem) : List MenuItem :=
  sortByLe nameLe rows

/-- A freshly created `menu` table (ids start at 1). -/
def emptyDatabase : Database := { nextId := 1, rows := [] }

/-- `DatabaseOperations.initializeDatabase`: open the database (keeping any
persisted state) and `CREATE TABLE IF NOT EXISTS menu ...`; on a fresh
install this yields the empty table. -/
def DatabaseOperations.initializeDatabase (stored : Option Database) : Database :=
  stored.getD emptyDatabase

/-- `DatabaseOperations.getAllMenuItems`:
`SELECT * FROM menu ORDER BY name`. -/
def DatabaseOperations.getAllMenuItems (db : Database) : List MenuItem :=
  sortByName db.rows

/-- One iteration of the `saveMenuItems` loop:
`INSERT INTO menu (name, price, description, image, category)
 VALUES (?, ?, ?, ?, ?)` with `[item.name, item.price, item.description,
item.image, item.category || 'Main']`. -/
def insertMenuItem (db : Database) (item : SourceItem) : Database :=
  { nextId := db.nextId + 1
    rows := db.rows ++
      [{ id := db.nextId
         name := item.name
         price := item.price
         description := item.description
         image := item.image
         category := jsOrDefault item.category "Main" }] }

/-- `DatabaseOperations.saveMenuItems`: insert every item of the list in
order. -/
def DatabaseOperations.saveMenuItems (db : Database) (menuItems : List SourceItem) : Database :=
  menuItems.foldl insertMenuItem db

/-- The guard `if (searchText && searchText.trim())` of
`filterBySearchAndCategories`: the text constraint is added exactly when
`searchText` is a non-empty string whose trim is non-empty. -/
def textConstraintActive (searchText : String) : Bool :=
  searchText != "" && jsTrim searchText != ""

/-- The `LIKE` parameter built by `filterBySearchAndCategories`:
`` `%${searchText.trim()}%` ``. -/
def likePattern (searchText : String) : String :=
  "%" ++ jsTrim searchText ++ "%"

/-- The optional `AND name LIKE ?` clause applied to one row: trivially true
when the text constraint is inactive. -/
def searchMatches (searchText : String) (r : MenuItem) : Bool :=
  if textConstraintActive searchText then
    likeMatch (likePattern searchText).data r.name.data
  else true

/-- The optional `AND category IN (...)` clause applied to one row:
trivially true when `categories` is empty. -/
def categoryMatches (categories : List String) (r : MenuItem) : Bool :=
  if categories.length > 0 then categories.contains r.category else true

/-- The `WHERE` clause of `filterBySearchAndCategories` applied to one row:
`1=1` conjoined with the two optional clauses. -/
def rowMatches (searchText : String) (categories : List String) (r : MenuItem) : Bool :=
  searchMatches searchText r && categoryMatches categories r

/-- `DatabaseOperations.filterBySearchAndCategories`: rows satisfying the
dynamically-built `WHERE` clause, `ORDER BY name`. -/
def DatabaseOperations.filterBySearchAndCategories (db : Database) (searchText : String)
    (categories : List String) : List MenuItem :=
  sortByName (db.rows.filter (rowMatches searchText categories))

/-- `DatabaseOperations.filterByCategories`: all rows when `categories` is
empty, otherwise `SELECT * FROM menu WHERE category IN (...) ORDER BY
name`. -/
def DatabaseOperations.filterByCategories (db : Database) (categories : List String) :
    List MenuItem :=
  if categories.length = 0 then DatabaseOperations.getAllMenuItems db
  else sortByName (db.rows.filter (fun r => categories.contains r.category))

/-- `fetchAndStoreMenuData` of `HomeScreen`: on a successful fetch of a
document with a `menu` array (`remote = some menu`), bulk-insert the items;
on failure or a malformed document (`remote = none`), leave the store
untouched. -/
def fetchAndStoreMenuData (db : Database) (remote : Option (List SourceItem)) : Database :=
  match remote with
  | some menu => DatabaseOperations.saveMenuItems db menu
  | none => db

/-- `loadMenuData` of `HomeScreen`: read the store; if it already has rows
use them, otherwise run the first-run bootstrap fetch. -/
def loadMenuData (db : Database) (remote : Option (List SourceItem)) : Database :=
  if (DatabaseOperations.getAllMenuItems db).length > 0 then db
  else fetchAndStoreMenuData db remote

/-- The `initializeDatabase` routine of the `HomeScreen` component: open the
store (`DatabaseOperations.initializeDatabase`) and then populate it if
empty (`loadMenuData`). -/
def initializeAndLoad (stored : Option Database) (remote : Option (List SourceItem)) :
    Database :=
  loadMenuData (DatabaseOperations.initializeDatabase stored) remote

/-- `handleCategoryToggle` of `HomeScreen`: remove the category if already
selected, append it otherwise. -/
def handleCategoryToggle (prev : List String) (category : String) : List String :=
  if prev.contains category then prev.filter (fun c => c != category)
  else prev ++ [category]

/-- JavaScript object-spread assignment of one key: overwrite the first
binding of `k` if present, append the binding otherwise. -/
def objSet : List (String × V) → String → V → List (String × V)
  | [], k, v => [(k, v)]
  | (k0, v0) :: rest, k, v =>
    if k0 == k then (k, v) :: rest else (k0, v0) :: objSet rest k v

/-- JavaScript `{ ...a, ...b }`: assign every binding of `b` into `a` in
order. -/
def spreadMerge (a b : List (String × V)) : List (String × V) :=
  b.foldl (fun acc kv => objSet acc kv.1 kv.2) a

/-- `loadUserData` of `HomeScreen`: if the stored `userData` record exists,
start from it and, if `profileSettings` also exists, spread the settings
over it; with no stored `userData` nothing is built. -/
def loadUserData (storedUserData profileSettings : Option (List (String × V))) :
    Option (List (String × V)) :=
  match storedUserData with
  | none => none
  | some u =>
    match profileSettings with
    | none => some u
    | some p => some (spreadMerge u p)

/-- `formatPhoneNumber`'s format step on the retained digits `t`
(at most 10): `(XXX) XXX-XXXX` once six digits are present, `(XXX) XXX`
from three, `(X..` below that. -/
def formatDigits (t : List Char) : List Char :=
  if t.length ≥ 6 then
    '(' :: (t.take 3 ++ ')' :: ' ' :: ((t.drop 3).take 3 ++ '-' :: t.drop 6))
  else if t.length ≥ 3 then
    '(' :: (t.take 3 ++ ')' :: ' ' :: t.drop 3)
  else if t.length > 0 then
    '(' :: t
  else t

/-- `formatPhoneNumber` of the profile editor: strip non-digits
(`value.replace(/\D/g, '')`), keep the first 10 digits, format. -/
def formatPhoneNumber (value : String) : String :=
  let numbers := value.data.filter Char.isDigit
  let truncated := numbers.take 10
  ⟨formatDigits truncated⟩

/-- `isValidPhoneNumber` of the profile editor: the value passes exactly
when it contains 10 digit characters. -/
def isValidPhoneNumber (phone : String) : Bool :=
  (phone.data.filter Char.isDigit).length == 10

/-! ### Helper lemmas: insertion sort -/

theorem mem_insertByLe {le : α → α → Bool} {a x : α} {l : List α} :
    x ∈ insertByLe le a l ↔ x = a ∨ x ∈ l := by
  induction l with
  | nil => simp [insertByLe]
  | cons b t ih =>
    by_cases hab : le a b = true
    · simp [insertByLe, hab]
    · simp [insertByLe, hab, ih]
      tauto

theorem mem_sortByLe {le : α → α → Bool} {x : α} {l : List α} :
    x ∈ sortByLe le l ↔ x ∈ l := by
  induction l with
  | nil => simp [sortByLe]
  | cons a t ih => simp [sortByLe, mem_insertByLe, ih]

theorem length_insertByLe {le : α → α → Bool} (a : α) (l : List α) :
    (insertByLe le a l).length = l.length + 1 := by
  induction l with
  | nil => simp [insertByLe]
  | cons b t ih =>
    by_cases hab : le a b = true <;> simp [insertByLe, hab, ih]

theorem length_sortByLe {le : α → α → Bool} (l : List α) :
    (sortByLe le l).length = l.length := by
  induction l with
  | nil => rfl
  | cons a t ih => simp [sortByLe, length_insertByLe, ih]

theorem pairwise_insertByLe {le : α → α → Bool}
    (htrans : ∀ a b c, le a b = true → le b c = true → le a c = true)
    (htotal : ∀ a b, le a b = true ∨ le b a = true)
    (a : α) {l : List α} (h : l.Pairwise (fun x y => le x y = true)) :
    (insertByLe le a l).Pairwise (fun x y => le x y = true) := by
  induction l with
  | nil => simp [insertByLe]
  | cons b t ih =>
    rw [List.pairwise_cons] at h
    obtain ⟨hb, ht⟩ := h
    by_cases hab : le a b = true
    · rw [insertByLe, if_pos hab, List.pairwise_cons]
      refine ⟨?_, List.pairwise_cons.mpr ⟨hb, ht⟩⟩
      intro x hx
      rcases List.mem_cons.mp hx with rfl | hx
      · exact hab
      · exact htrans a b x hab (hb x hx)
    · rw [insertByLe, if_neg hab, List.pairwise_cons]
      refine ⟨?_, ih ht⟩
      intro x hx
      rcases mem_insertByLe.mp hx with heq | hx
      · rw [heq]
        rcases htotal a b with h1 | h1
        · exact absurd h1 hab
        · exact h1
      · exact hb x hx

theorem pairwise_sortByLe {le : α → α → Bool}
    (htrans : ∀ a b c, le a b = true → le b c = true → le a c = true)
    (htotal : ∀ a b, le a b = true ∨ le b a = true)
    (l : List α) :
    (sortByLe le l).Pairwise (fun x y => le x y = true) := by
  induction l with
  | nil => simp [sortByLe]
  | cons a t ih => exact pairwise_insertByLe htrans htotal a ih

theorem mem_sortByName {x : MenuItem} {rows : List MenuItem} :
    x ∈ sortByName rows ↔ x ∈ rows :=
  mem_sortByLe

theorem length_sortByName (rows : List MenuItem) :
    (sortByName rows).length = rows.length :=
  length_sortByLe rows

theorem leChars_total : ∀ x y : List Char, leChars x y = true ∨ leChars y x = true := by
  intro x
  induction x with
  | nil =>
    intro y
    left
    simp [leChars]
  | cons a as ih =>
    intro y
    cases y with
    | nil =>
      right
      simp [leChars]
    | cons b bs =>
      rcases lt_trichotomy a b with hab | heq | hba
      · left
        simp [leChars, hab]
      · subst heq
        rcases ih bs with h | h
        · left
          simp [leChars, h]
        · right
          simp [leChars, h]
      · right
        simp [leChars, hba]

theorem leChars_trans :
    ∀ x y z : List Char, leChars x y = true → leChars y z = true → leChars x z = true := by
  intro x
  induction x with
  | nil =>
    intro y z _ _
    simp [leChars]
  | cons a as ih =>
    intro y z hxy hyz
    cases y with
    | nil => simp [leChars] at hxy
    | cons b bs =>
      cases z with
      | nil => simp [leChars] at hyz
      | cons c cs =>
        rcases lt_trichotomy a b with hab | heq | hba
        · rcases lt_trichotomy b c with hbc | heq2 | hcb
          · simp [leChars, lt_trans hab hbc]
          · subst heq2
            simp [leChars, hab]
          · simp [leChars, lt_asymm hcb, hcb] at hyz
        · subst heq
          simp [leChars] at hxy
          rcases lt_trichotomy a c with hac | heq2 | hca
          · simp [leChars, hac]
          · subst heq2
            simp [leChars] at hyz ⊢
            exact ih bs cs hxy hyz
          · simp [leChars, lt_asymm hca, hca] at hyz
        · simp [leChars, lt_asymm hba, hba] at hxy

theorem leChars_iff_not_lex :
    ∀ x y : List Char, leChars x y = true ↔ ¬ List.Lex (· < ·) y x := by
  intro x
  induction x with
  | nil =>
    intro y
    exact iff_of_true (by simp [leChars]) (List.Lex.not_nil_right _ _)
  | cons a as ih =>
    intro y
    cases y with
    | nil =>
      exact iff_of_false (by simp [leChars]) (fun hn => hn List.Lex.nil)
    | cons b bs =>
      rcases lt_trichotomy a b with hab | heq | hba
      · refine iff_of_true (by simp [leChars, hab]) ?_
        intro h
        cases h with
        | cons h' => exact lt_irrefl a hab
        | rel hr => exact lt_asymm hab hr
      · subst heq
        have hred : leChars (a :: as) (a :: bs) = leChars as bs := by
          simp [leChars]
        rw [hred, List.Lex.cons_iff]
        exact ih bs
      · refine iff_of_false (by simp [leChars, lt_asymm hba, hba]) ?_
        exact fun hn => hn (List.Lex.rel hba)

/-- `leChars` on the underlying character lists is the standard order on
`String`. -/
theorem leChars_iff_le (a b : String) : leChars a.data b.data = true ↔ a ≤ b := by
  rw [leChars_iff_not_lex]
  constructor
  · intro h hlt
    exact h (String.lt_iff_toList_lt.mp hlt)
  · intro h hlex
    exact h (String.lt_iff_toList_lt.mpr hlex)

theorem pairwise_sortByName (rows : List MenuItem) :
    (sortByName rows).Pairwise (fun a b => a.name ≤ b.name) := by
  have h := @pairwise_sortByLe MenuItem nameLe
    (fun a b c hab hbc => leChars_trans _ _ _ hab hbc)
    (fun a b => leChars_total a.name.data b.name.data)
    rows
  exact h.imp (fun hxy => (leChars_iff_le _ _).mp hxy)

/-! ### Helper lemmas: trimming -/

theorem reverse_dropWhile_concat {α} (p : α → Bool) (b : α) (w : List α) :
    (List.dropWhile p (w ++ [b])).reverse = []
      ∨ ∃ t, (List.dropWhile p (w ++ [b])).reverse = b :: t := by
  induction w with
  | nil =>
    cases hb : p b with
    | true =>
      left
      simp [List.dropWhile, hb]
    | false =>
      right
      refine ⟨[], ?_⟩
      simp [List.dropWhile, hb]
  | cons a w' ih =>
    by_cases ha : p a = true
    · simpa [List.dropWhile_cons, ha] using ih
    · right
      refine ⟨w'.reverse ++ [a], ?_⟩
      rw [List.cons_append, List.dropWhile_cons_of_neg ha]
      simp

theorem dropWhile_rdropWhile {α} (p : α → Bool) (x : List α)
    (hx : List.dropWhile p x = x) :
    List.dropWhile p (List.rdropWhile p x) = List.rdropWhile p x := by
  cases x with
  | nil => simp [List.rdropWhile]
  | cons b y =>
    have hb : p b = false := by
      cases hpb : p b with
      | false => rfl
      | true =>
        rw [List.dropWhile_cons_of_pos hpb] at hx
        have hlen : (List.dropWhile p y).length ≤ y.length :=
          (List.dropWhile_sublist p).length_le
        rw [hx] at hlen
        simp only [List.length_cons] at hlen
        omega
    have hrw : List.rdropWhile p (b :: y) = (List.dropWhile p (y.reverse ++ [b])).reverse := by
      rw [List.rdropWhile, List.reverse_cons]
    rcases reverse_dropWhile_concat p b y.reverse with hnil | ⟨t, ht⟩
    · rw [hrw, hnil]
      simp
    · rw [hrw, ht, List.dropWhile_cons_of_neg (by simp [hb])]

/-- Trimming both ends is idempotent. -/
theorem trimChars_idem (p : Char → Bool) (l : List Char) :
    trimChars p (trimChars p l) = trimChars p l := by
  unfold trimChars
  rw [dropWhile_rdropWhile p (List.dropWhile p l) (List.dropWhile_idempotent p l)]
  exact List.rdropWhile_idempotent p (List.dropWhile p l)

/-- JavaScript `trim` is idempotent. -/
theorem jsTrim_jsTrim (s : String) : jsTrim (jsTrim s) = jsTrim s :=
  congrArg String.mk (trimChars_idem isJsWs s.data)

theorem jsTrim_empty : jsTrim "" = "" := rfl

/-! ### Helper lemmas: bulk insert -/

theorem saveMenuItems_rows_append :
    ∀ (items : List SourceItem) (db : Database),
      (DatabaseOperations.saveMenuItems db items).rows.map (fun r => r.category)
        = db.rows.map (fun r => r.category)
            ++ items.map (fun i => jsOrDefault i.category "Main") := by
  intro items
  induction items with
  | nil =>
    intro db
    simp [DatabaseOperations.saveMenuItems]
  | cons i rest ih =>
    intro db
    have hstep : DatabaseOperations.saveMenuItems db (i :: rest)
        = DatabaseOperations.saveMenuItems (insertMenuItem db i) rest := rfl
    rw [hstep, ih]
    simp [insertMenuItem]

theorem saveMenuItems_rows_length (items : List SourceItem) (db : Database) :
    (DatabaseOperations.saveMenuItems db items).rows.length
      = db.rows.length + items.length := by
  have h := congrArg List.length (saveMenuItems_rows_append items db)
  simpa using h

/-! ### Helper lemmas: object spread -/

theorem lookup_objSet_self {V : Type} (o : List (String × V)) (k : String) (v : V) :
    (objSet o k v).lookup k = some v := by
  induction o with
  | nil => simp [objSet]
  | cons kv rest ih =>
    obtain ⟨k0, v0⟩ := kv
    by_cases h : k0 = k
    · subst h
      simp [objSet]
    · have hb : (k0 == k) = false := by simp [h]
      have hb' : (k == k0) = false := by simp [Ne.symm h]
      simp [objSet, hb, List.lookup_cons, hb', ih]

theorem lookup_objSet_ne {V : Type} (o : List (String × V)) (k k' : String) (v : V)
    (hkk : k' ≠ k) :
    (objSet o k v).lookup k' = o.lookup k' := by
  have hkkb : (k' == k) = false := by simp [hkk]
  induction o with
  | nil => simp [objSet, List.lookup_cons, hkkb]
  | cons kv rest ih =>
    obtain ⟨k0, v0⟩ := kv
    by_cases h : k0 = k
    · subst h
      simp [objSet, List.lookup_cons, hkkb]
    · have hb : (k0 == k) = false := by simp [h]
      simp [objSet, hb, List.lookup_cons, ih]

theorem lookup_spreadMerge {V : Type} :
    ∀ (p : List (String × V)), (p.map Prod.fst).Nodup →
      ∀ (u : List (String × V)) (k : String),
        (spreadMerge u p).lookup k = (p.lookup k).or (u.lookup k) := by
  intro p
  induction p with
  | nil =>
    intro _ u k
    simp [spreadMerge, Option.or]
  | cons kv rest ih =>
    intro hnd u k
    obtain ⟨k0, v0⟩ := kv
    rw [List.map_cons, List.nodup_cons] at hnd
    obtain ⟨hk0, hrest⟩ := hnd
    have hstep : spreadMerge u ((k0, v0) :: rest) = spreadMerge (objSet u k0 v0) rest := rfl
    rw [hstep, ih hrest]
    by_cases h : k = k0
    · subst h
      have hnone : rest.lookup k = none := by
        rw [List.lookup_eq_none_iff]
        intro q hq
        have hq1 : q.1 ∈ rest.map Prod.fst := List.mem_map.mpr ⟨q, hq, rfl⟩
        have hne : k ≠ q.1 := fun he => hk0 (he ▸ hq1)
        simpa using hne
      rw [hnone, lookup_objSet_self]
      simp [List.lookup_cons, Option.or]
    · have hb : (k == k0) = false := by simp [h]
      rw [lookup_objSet_ne u k0 k v0 h]
      simp [List.lookup_cons, hb]

/-! ### Helper lemmas: the filter clauses -/

theorem searchMatches_empty (r : MenuItem) : searchMatches "" r = true := by
  simp [searchMatches, textConstraintActive]

theorem searchMatches_of_trim_empty {s : String} (h : jsTrim s = "") (r : MenuItem) :
    searchMatches s r = true := by
  simp [searchMatches, textConstraintActive, h]

theorem searchMatches_trim (s : String) (r : MenuItem) :
    searchMatches s r = searchMatches (jsTrim s) r := by
  by_cases h : jsTrim s = ""
  · rw [searchMatches_of_trim_empty h, h, searchMatches_empty]
  · have hs : s ≠ "" := fun he => h (by rw [he]; exact jsTrim_empty)
    have hact : textConstraintActive s = true := by
      simp [textConstraintActive, hs, h]
    have hact2 : textConstraintActive (jsTrim s) = true := by
      simp [textConstraintActive, h, jsTrim_jsTrim]
    have hpat : likePattern (jsTrim s) = likePattern s := by
      rw [likePattern, likePattern, jsTrim_jsTrim]
    rw [searchMatches, searchMatches, hact, hact2, if_pos rfl, if_pos rfl, hpat]

/-! ### Sample store used to instantiate the universally quantified theorems -/

def sampleRow1 : MenuItem :=
  { id := 1, name := "Lemon Cake", price := 6.5, description := some "",
    image := some "lemonCake.jpg", category := "Desserts" }

def sampleRow2 : MenuItem :=
  { id := 2, name := "Greek Salad", price := 12.99, description := some "",
    image := some "greekSalad.jpg", category := "Mains" }

def sampleDb : Database := { nextId := 3, rows := [sampleRow1, sampleRow2] }

/-! ### Claims -/

/-- C1: for every store state, Filter with an empty `searchText` imposes no
text constraint (it agrees with the pure category filter
`filterByCategories`), Filter with an empty category set imposes no category
constraint (it agrees with filtering by the text clause alone), and Filter
with both empty returns exactly the same rows in the same order as
GetAll. -/
theorem C1_filter_empty_inputs (db : Database) (s : String) (cats : List String) :
    DatabaseOperations.filterBySearchAndCategories db "" cats
        = DatabaseOperations.filterByCategories db cats
    ∧ DatabaseOperations.filterBySearchAndCategories db s []
        = sortByName (db.rows.filter (searchMatches s))
    ∧ DatabaseOperations.filterBySearchAndCategories db "" []
        = DatabaseOperations.getAllMenuItems db := by
  have hsearch : ∀ (cats' : List String),
      DatabaseOperations.filterBySearchAndCategories db "" cats'
        = sortByName (db.rows.filter (categoryMatches cats')) := by
    intro cats'
    rfl
  refine ⟨?_, ?_, ?_⟩
  · cases cats with
    | nil =>
      rw [hsearch, DatabaseOperations.filterByCategories]
      have h1 : db.rows.filter (categoryMatches []) = db.rows :=
        List.filter_eq_self.mpr (fun r _ => by simp [categoryMatches])
      rw [h1]
      simp [DatabaseOperations.getAllMenuItems]
    | cons c cs =>
      rw [hsearch, DatabaseOperations.filterByCategories]
      have h1 : db.rows.filter (categoryMatches (c :: cs))
          = db.rows.filter (fun r => (c :: cs).contains r.category) := by
        apply List.filter_congr
        intro r _
        simp [categoryMatches]
      rw [h1]
      simp
  · unfold DatabaseOperations.filterBySearchAndCategories
    congr 1
    apply List.filter_congr
    intro r _
    simp [rowMatches, categoryMatches]
  · rw [hsearch]
    have h1 : db.rows.filter (categoryMatches []) = db.rows :=
      List.filter_eq_self.mpr (fun r _ => by simp [categoryMatches])
    rw [h1]
    rfl

/-- C3: for every store state, non-empty `searchText` and category set, each
row returned by Filter with the text constraint is also returned by Filter
with the empty text — adding a text constraint never widens the result. -/
theorem C3_search_narrows (db : Database) (s : String) (cats : List String) (r : MenuItem)
    (hs : s ≠ "")
    (hr : r ∈ DatabaseOperations.filterBySearchAndCategories db s cats) :
    r ∈ DatabaseOperations.filterBySearchAndCategories db "" cats := by
  unfold DatabaseOperations.filterBySearchAndCategories at hr ⊢
  rw [mem_sortByName, List.mem_filter] at hr ⊢
  refine ⟨hr.1, ?_⟩
  have h2 := hr.2
  rw [rowMatches, Bool.and_eq_true] at h2
  rw [rowMatches, Bool.and_eq_true]
  exact ⟨searchMatches_empty r, h2.2⟩

/-- C3 instantiated: the search text `" "` is non-empty, the Greek Salad row
is in the filtered result, and the theorem places it in the unfiltered
result. -/
theorem C3_search_narrows_witness :
    (" " : String) ≠ ""
    ∧ sampleRow2 ∈ DatabaseOperations.filterBySearchAndCategories sampleDb " " []
    ∧ sampleRow2 ∈ DatabaseOperations.filterBySearchAndCategories sampleDb "" [] := by
  have hmem : sampleRow2 ∈ DatabaseOperations.filterBySearchAndCategories sampleDb " " [] := by
    unfold DatabaseOperations.filterBySearchAndCategories
    rw [mem_sortByName, List.mem_filter]
    refine ⟨by simp [sampleDb], by decide⟩
  exact ⟨by decide, hmem, C3_search_narrows sampleDb " " [] sampleRow2 (by decide) hmem⟩

/-- C4: for every store state (hence every permutation of the inserted rows)
and every Filter input, GetAll and Filter return rows sorted by `name`
ascending. -/
theorem C4_results_sorted_by_name (db : Database) (s : String) (cats : List String) :
    (DatabaseOperations.getAllMenuItems db).Pairwise (fun a b => a.name ≤ b.name)
    ∧ (DatabaseOperations.filterBySearchAndCategories db s cats).Pairwise
        (fun a b => a.name ≤ b.name) :=
  ⟨pairwise_sortByName db.rows, pairwise_sortByName (db.rows.filter (rowMatches s cats))⟩

/-- C7: for every store state and category set, the text query is trimmed
before matching (Filter of `s` equals Filter of the trimmed `s`), and a
whitespace-only query behaves like the empty query. -/
theorem C7_search_text_trimmed (db : Database) (s : String) (cats : List String) :
    DatabaseOperations.filterBySearchAndCategories db s cats
        = DatabaseOperations.filterBySearchAndCategories db (jsTrim s) cats
    ∧ (jsTrim s = "" →
        DatabaseOperations.filterBySearchAndCategories db s cats
          = DatabaseOperations.filterBySearchAndCategories db "" cats) := by
  constructor
  · unfold DatabaseOperations.filterBySearchAndCategories
    congr 1
    apply List.filter_congr
    intro r _
    rw [rowMatches, rowMatches, searchMatches_trim]
  · intro h
    unfold DatabaseOperations.filterBySearchAndCategories
    congr 1
    apply List.filter_congr
    intro r _
    rw [rowMatches, rowMatches, searchMatches_of_trim_empty h, searchMatches_empty]

/-- C7 instantiated: the query `"   "` trims to the empty string and filters
exactly like the empty query on the sample store. -/
theorem C7_search_text_trimmed_witness :
    jsTrim "   " = ""
    ∧ DatabaseOperations.filterBySearchAndCategories sampleDb "   " ["Mains"]
        = DatabaseOperations.filterBySearchAndCategories sampleDb "" ["Mains"] :=
  ⟨by decide, (C7_search_text_trimmed sampleDb "   " ["Mains"]).2 (by decide)⟩

/-- C8: toggle semantics — toggling a category not in the selected set adds
it, toggling one already selected removes it, other selected categories stay
selected (no exclusivity), and toggling on then off restores the selected
set and hence the filtered visible items. -/
theorem C8_toggle_involution (prev : List String) (c : String) :
    (c ∉ prev → c ∈ handleCategoryToggle prev c)
    ∧ (c ∈ prev → c ∉ handleCategoryToggle prev c)
    ∧ (c ∉ prev → ∀ x ∈ prev, x ∈ handleCategoryToggle prev c)
    ∧ (c ∉ prev → handleCategoryToggle (handleCategoryToggle prev c) c = prev)
    ∧ (c ∉ prev → ∀ (db : Database) (s : String),
        DatabaseOperations.filterBySearchAndCategories db s
            (handleCategoryToggle (handleCategoryToggle prev c) c)
          = DatabaseOperations.filterBySearchAndCategories db s prev) := by
  have htoggle_not : ∀ h : c ∉ prev, handleCategoryToggle prev c = prev ++ [c] := by
    intro h
    have hc : prev.contains c = false := by
      rw [Bool.eq_false_iff]
      intro hcon
      exact h (List.elem_iff.mp hcon)
    rw [handleCategoryToggle, hc]
    simp
  have hdouble : ∀ h : c ∉ prev,
      handleCategoryToggle (handleCategoryToggle prev c) c = prev := by
    intro h
    rw [htoggle_not h]
    have hc2 : (prev ++ [c]).contains c = true :=
      List.elem_iff.mpr (List.mem_append_right prev (List.mem_singleton.mpr rfl))
    rw [handleCategoryToggle, hc2]
    rw [if_pos rfl, List.filter_append]
    have h1 : prev.filter (fun x => x != c) = prev :=
      List.filter_eq_self.mpr (fun x hx => bne_iff_ne.mpr (fun he => h (he ▸ hx)))
    have h2 : [c].filter (fun x => x != c) = [] := by simp
    rw [h1, h2, List.append_nil]
  refine ⟨?_, ?_, ?_, hdouble, ?_⟩
  · intro h
    rw [htoggle_not h]
    exact List.mem_append_right prev (List.mem_singleton.mpr rfl)
  · intro h
    have hc : prev.contains c = true := List.elem_iff.mpr h
    rw [handleCategoryToggle, hc, if_pos rfl]
    intro hcon
    have := (List.mem_filter.mp hcon).2
    simp at this
  · intro h x hx
    rw [htoggle_not h]
    exact List.mem_append_left [c] hx
  · intro h db s
    rw [hdouble h]

/-- C8 instantiated at Scenario 5: toggling "Mains" on then off from the
empty selection restores the empty selection and the visible items. -/
theorem C8_toggle_involution_witness :
    ("Mains" ∉ ([] : List String))
    ∧ "Mains" ∈ handleCategoryToggle [] "Mains"
    ∧ handleCategoryToggle (handleCategoryToggle [] "Mains") "Mains" = []
    ∧ DatabaseOperations.filterBySearchAndCategories sampleDb ""
          (handleCategoryToggle (handleCategoryToggle [] "Mains") "Mains")
        = DatabaseOperations.filterBySearchAndCategories sampleDb "" [] := by
  have h := C8_toggle_involution [] "Mains"
  have hnot : "Mains" ∉ ([] : List String) := by simp
  exact ⟨hnot, h.1 hnot, h.2.2.2.1 hnot, h.2.2.2.2 hnot sampleDb ""⟩

/-- C9: reading both records merges the parsed `userData` and
`profileSettings` objects; on every key the merged value is the
`profileSettings` value when that record binds the key, the `userData` value
otherwise. -/
theorem C9_profile_merge {V : Type} (u p : List (String × V)) (k : String)
    (hp : (p.map Prod.fst).Nodup) :
    loadUserData (some u) (some p) = some (spreadMerge u p)
    ∧ (spreadMerge u p).lookup k = (p.lookup k).or (u.lookup k) :=
  ⟨rfl, lookup_spreadMerge p hp u k⟩

/-- Sample parsed `userData` record. -/
def userDataSample : List (String × String) :=
  [("firstName", "Sam"), ("email", "old@example.com")]

/-- Sample parsed `profileSettings` record overlapping on `"email"`. -/
def profileSettingsSample : List (String × String) :=
  [("phoneNumber", "(555) 123-4567"), ("email", "new@example.com")]

/-- C9 instantiated: on the overlapping key `"email"` the merged view holds
the `profileSettings` value. -/
theorem C9_profile_merge_witness :
    ((profileSettingsSample.map Prod.fst).Nodup)
    ∧ loadUserData (some userDataSample) (some profileSettingsSample)
        = some (spreadMerge userDataSample profileSettingsSample)
    ∧ (spreadMerge userDataSample profileSettingsSample).lookup "email"
        = ((profileSettingsSample.lookup "email").or (userDataSample.lookup "email")) := by
  have hnd : (profileSettingsSample.map Prod.fst).Nodup := by decide
  have h := C9_profile_merge userDataSample profileSettingsSample "email" hnd
  exact ⟨hnd, h.1, h.2⟩

/-! ### Helper lemmas: bootstrap idempotence -/

theorem loadMenuData_of_nonempty {d : Database} (h : 0 < d.rows.length)
    (remote : Option (List SourceItem)) : loadMenuData d remote = d := by
  rw [loadMenuData, if_pos]
  show 0 < (DatabaseOperations.getAllMenuItems d).length
  rw [DatabaseOperations.getAllMenuItems, length_sortByName]
  exact h

theorem loadMenuData_of_empty {d : Database} (h : d.rows.length = 0)
    (remote : Option (List SourceItem)) :
    loadMenuData d remote = fetchAndStoreMenuData d remote := by
  rw [loadMenuData, if_neg]
  intro hcon
  rw [DatabaseOperations.getAllMenuItems, length_sortByName, h] at hcon
  exact lt_irrefl 0 hcon

theorem loadMenuData_idem (d : Database) (remote : Option (List SourceItem)) :
    loadMenuData (loadMenuData d remote) remote = loadMenuData d remote := by
  by_cases h : 0 < d.rows.length
  · rw [loadMenuData_of_nonempty h, loadMenuData_of_nonempty h]
  · have h0 : d.rows.length = 0 := by omega
    rw [loadMenuData_of_empty h0]
    cases remote with
    | none =>
      rw [show fetchAndStoreMenuData d none = d from rfl]
      rw [loadMenuData_of_empty h0]
      rfl
    | some menu =>
      cases menu with
      | nil =>
        rw [show fetchAndStoreMenuData d (some []) = d from rfl]
        rw [loadMenuData_of_empty h0]
        rfl
      | cons i rest =>
        have hpos : 0 < (DatabaseOperations.saveMenuItems d (i :: rest)).rows.length := by
          rw [saveMenuItems_rows_length]
          simp
        rw [show fetchAndStoreMenuData d (some (i :: rest))
            = DatabaseOperations.saveMenuItems d (i :: rest) from rfl]
        exact loadMenuData_of_nonempty hpos _

/-- C6: running open-and-populate twice in sequence with no intervening
writes yields the same row count after each run; the bootstrap is performed
only when GetAll is empty, so a second initialization never duplicates
rows. -/
theorem C6_initialize_idempotent (stored : Option Database)
    (remote : Option (List SourceItem)) :
    (initializeAndLoad (some (initializeAndLoad stored remote)) remote).rows.length
      = (initializeAndLoad stored remote).rows.length := by
  show (loadMenuData (loadMenuData (DatabaseOperations.initializeDatabase stored) remote)
      remote).rows.length
    = (loadMenuData (DatabaseOperations.initializeDatabase stored) remote).rows.length
  rw [loadMenuData_idem]

/-- The `menu` element of Scenario 1's remote document: the `category` field
is omitted. -/
def greekSaladItem : SourceItem :=
  { name := "Greek Salad", price := 12.99, description := some "",
    image := some "greekSalad.jpg", category := none }

/-- The row Scenario 1's bootstrap stores: id 1, category defaulted to
`"Main"`. -/
def greekSaladRow : MenuItem :=
  { id := 1, name := "Greek Salad", price := 12.99, description := some "",
    image := some "greekSalad.jpg", category := "Main" }

/-- A source item whose `category` field is present but holds the empty
string — falsy in JavaScript, so `item.category || 'Main'` still defaults
it. -/
def emptyCategoryItem : SourceItem :=
  { name := "Pasta", price := 12.99, description := some "",
    image := some "pasta.jpg", category := some "" }

/-- C5 counterexample: a row's category can be stored as `"Main"` even
though the source item does not omit the `category` field — it supplies the
(falsy) empty string. -/
theorem C5_category_default_counterexample :
    (DatabaseOperations.saveMenuItems emptyDatabase [emptyCategoryItem]).rows.map
        (fun r => r.category) = ["Main"]
    ∧ emptyCategoryItem.category ≠ none :=
  ⟨rfl, by simp [emptyCategoryItem]⟩

/-- C5 (amended): BulkInsert appends one new row per source item, in order,
with the stored category `item.category || "Main"`; that stored category is
`"Main"` exactly when the item omits the field, supplies the empty string,
or supplies `"Main"` itself; bootstrapping the empty store from Scenario 1's
one-element document leaves GetAll returning one row with category
`"Main"`. -/
theorem C5_bulk_insert_amended (db : Database) (items : List SourceItem)
    (item : SourceItem) :
    (DatabaseOperations.saveMenuItems db items).rows.map (fun r => r.category)
        = db.rows.map (fun r => r.category)
            ++ items.map (fun i => jsOrDefault i.category "Main")
    ∧ (DatabaseOperations.saveMenuItems db items).rows.length
        = db.rows.length + items.length
    ∧ (jsOrDefault item.category "Main" = "Main"
        ↔ (item.category = none ∨ item.category = some ""
            ∨ item.category = some "Main"))
    ∧ DatabaseOperations.getAllMenuItems (initializeAndLoad none (some [greekSaladItem]))
        = [greekSaladRow] := by
  refine ⟨saveMenuItems_rows_append items db, saveMenuItems_rows_length items db, ?_, rfl⟩
  cases hc : item.category with
  | none => simp [jsOrDefault]
  | some s =>
    by_cases hs : s = ""
    · subst hs
      simp [jsOrDefault]
    · simp [jsOrDefault, hs]

/-- C2 counterexample: phone formatting of `"555123"` yields
`"(555) 123-"` (with a trailing hyphen, as the six-digit input already takes
the full-format branch), not `"(555) 123"` as claimed. -/
theorem C2_phone_format_counterexample :
    formatPhoneNumber "555123" = "(555) 123-"
    ∧ formatPhoneNumber "555123" ≠ "(555) 123" :=
  ⟨by decide, by decide⟩

/-- C2 (amended): formatting `"5551234567"` yields `"(555) 123-4567"`,
formatting `"555123"` yields `"(555) 123-"`, and validation of a value
passes exactly when it contains 10 digit characters. -/
theorem C2_phone_format_amended :
    formatPhoneNumber "5551234567" = "(555) 123-4567"
    ∧ formatPhoneNumber "555123" = "(555) 123-"
    ∧ ∀ phone : String,
        isValidPhoneNumber phone = true
          ↔ (phone.data.filter Char.isDigit).length = 10 := by
  refine ⟨by decide, by decide, ?_⟩
  intro phone
  rw [isValidPhoneNumber]
  simp

/-! ### Helper lemmas: phone formatting -/

theorem isDigit_lparen : ('(' : Char).isDigit = false := by decide

theorem isDigit_rparen : (')' : Char).isDigit = false := by decide

theorem isDigit_space : (' ' : Char).isDigit = false := by decide

theorem isDigit_dash : ('-' : Char).isDigit = false := by decide

theorem filter_formatDigits (t : List Char) :
    (formatDigits t).filter Char.isDigit = t.filter Char.isDigit := by
  rw [formatDigits]
  by_cases h6 : t.length ≥ 6
  · rw [if_pos h6]
    have hdd : (t.drop 3).drop 3 = t.drop 6 := by
      rw [List.drop_drop]
    have hsplit : t.take 3 ++ ((t.drop 3).take 3 ++ t.drop 6) = t := by
      rw [← hdd, List.take_append_drop, List.take_append_drop]
    conv_rhs => rw [← hsplit]
    simp [List.filter_append, List.filter_cons, isDigit_lparen, isDigit_rparen,
      isDigit_space, isDigit_dash]
  · rw [if_neg h6]
    by_cases h3 : t.length ≥ 3
    · rw [if_pos h3]
      simp only [List.filter_cons, List.filter_append, isDigit_lparen, isDigit_rparen,
        isDigit_space, Bool.false_eq_true, if_false]
      rw [← List.filter_append, List.take_append_drop]
    · rw [if_neg h3]
      by_cases h0 : t.length > 0
      · rw [if_pos h0]
        simp [List.filter_cons, isDigit_lparen]
      · rw [if_neg h0]

theorem digits_formatPhoneNumber (s : String) :
    (formatPhoneNumber s).data.filter Char.isDigit
      = (s.data.filter Char.isDigit).take 10 := by
  show (formatDigits ((s.data.filter Char.isDigit).take 10)).filter Char.isDigit
      = (s.data.filter Char.isDigit).take 10
  rw [filter_formatDigits]
  apply List.filter_eq_self.mpr
  intro c hc
  exact List.of_mem_filter (List.mem_of_mem_take hc)

/-- C10: phone formatting keeps exactly the first 10 digit characters of its
input (digits beyond the tenth are discarded), and it is idempotent:
formatting a formatted value returns it unchanged. -/
theorem C10_phone_format_idempotent (s : String) :
    (formatPhoneNumber s).data.filter Char.isDigit
        = (s.data.filter Char.isDigit).take 10
    ∧ formatPhoneNumber (formatPhoneNumber s) = formatPhoneNumber s := by
  refine ⟨digits_formatPhoneNumber s, ?_⟩
  show (⟨formatDigits (((formatPhoneNumber s).data.filter Char.isDigit).take 10)⟩ : String)
      = formatPhoneNumber s
  rw [digits_formatPhoneNumber, List.take_take, Nat.min_self]
  rfl
